import Mathlib

/-!
Verification of the rover power-management core
(src/rover_power_manager/power_manager.cpp) against its specification.

The C++ node is shallowly embedded: `float` quantities are modeled as `ℚ`
(the literal `5.4f` becomes `27/5`, `24.6f` becomes `123/5`), the mutable
node state (`current_mode_`, `energy_state_`, `components_`) becomes the
structure `PowerManager`, each ROS callback / timer handler becomes a pure
state-transition function, and published messages become an explicit event
list.  `std::sort` in `allocatePower` is modeled by `List.insertionSort`
on the same comparator key; the C++ standard leaves the relative order of
equal-priority elements unspecified for `std::sort`, which is analysed
separately via the relation `sortContractOK`.
-/

namespace RoverEnergy

/-- Operating modes, mirroring `enum class PowerMode`. -/
inductive PowerMode where
  | NORMAL
  | LOW_POWER
  | HIBERNATION
  | EMERGENCY
deriving DecidableEq

/-- Component priority classes, mirroring `enum class ComponentPriority`
with underlying values CRITICAL = 0, HIGH = 1, MEDIUM = 2, LOW = 3. -/
inductive ComponentPriority where
  | CRITICAL
  | HIGH
  | MEDIUM
  | LOW
deriving DecidableEq

/-- Underlying integer value of a priority, as used by the C++ comparator
`a->priority < b->priority`. -/
def ComponentPriority.toNat : ComponentPriority → Nat
  | .CRITICAL => 0
  | .HIGH => 1
  | .MEDIUM => 2
  | .LOW => 3

/-- One registry entry, mirroring `struct PowerComponent`. -/
structure PowerComponent where
  name : String
  priority : ComponentPriority
  nominal_power : ℚ
  current_power : ℚ
  is_enabled : Bool
  is_essential : Bool
deriving DecidableEq

/-- Energy telemetry snapshot, mirroring `struct EnergyState`. -/
structure EnergyState where
  battery_soc : ℚ
  voltage : ℚ
  current : ℚ
  power_consumption : ℚ
  solar_generation : ℚ
  temperature : ℚ
  mode : PowerMode
deriving DecidableEq

/-- Messages the node publishes, standing in for the three ROS publishers
(`power/mode`, `power/battery_soc`, `power/available_power`). -/
inductive PubEvent where
  | modeMsg (s : String)
  | socMsg (q : ℚ)
  | budgetMsg (q : ℚ)
deriving DecidableEq

/-- Mutable state of the `PowerManager` node: `current_mode_`,
`energy_state_` and `components_`. -/
structure PowerManager where
  current_mode : PowerMode
  energy_state : EnergyState
  components : List PowerComponent
deriving DecidableEq

/-- Fixed initial catalog pushed by `initializeComponents()`. -/
def initComponents : List PowerComponent :=
  [ ⟨"communication", .CRITICAL, 15, 15, true, true⟩,
    ⟨"fdir_watchdog", .CRITICAL, 5, 5, true, true⟩,
    ⟨"navigation", .HIGH, 25, 25, true, true⟩,
    ⟨"motors", .HIGH, 50, 0, true, true⟩,
    ⟨"lidar", .MEDIUM, 20, 20, true, false⟩,
    ⟨"cameras", .MEDIUM, 15, 15, true, false⟩,
    ⟨"science_instruments", .LOW, 30, 0, true, false⟩,
    ⟨"heating", .MEDIUM, 40, 0, true, false⟩ ]

/-- Constructor state: the field values written by `PowerManager()`. -/
def initState : PowerManager :=
  { current_mode := .NORMAL
    energy_state :=
      { battery_soc := 100
        voltage := 28
        current := 0
        power_consumption := 0
        solar_generation := 0
        temperature := 20
        mode := .NORMAL }
    components := initComponents }

/-- String form of a mode, mirroring `powerModeToString`. -/
def powerModeToString : PowerMode → String
  | .NORMAL => "NORMAL"
  | .LOW_POWER => "LOW_POWER"
  | .HIBERNATION => "HIBERNATION"
  | .EMERGENCY => "EMERGENCY"

/-- Clamp as computed by `std::clamp(x, lo, hi)`. -/
def clampQ (x lo hi : ℚ) : ℚ :=
  if x < lo then lo else if hi < x then hi else x

/-- SOC computed by `batteryCallback` from a voltage sample:
`((v - 24.0) / 5.4) * 100.0`, clamped to `[0, 100]`. -/
def socOfVoltage (v : ℚ) : ℚ :=
  clampQ (((v - 24) / (27/5)) * 100) 0 100

/-- Mirrors `batteryCallback`: store the voltage, recompute and clamp the
SOC, publish the SOC. -/
def batteryCallback (v : ℚ) (st : PowerManager) : PowerManager × List PubEvent :=
  let e := { st.energy_state with voltage := v, battery_soc := socOfVoltage v }
  ({ st with energy_state := e }, [.socMsg (socOfVoltage v)])

/-- Mirrors `solarCallback`: overwrite `solar_generation`, no filtering. -/
def solarCallback (w : ℚ) (st : PowerManager) : PowerManager :=
  { st with energy_state := { st.energy_state with solar_generation := w } }

/-- Motor draw computed by `velocityCallback`:
`10.0 + 40.0 * |linear.x| + 20.0 * |angular.z|`. -/
def motorPowerOf (lx az : ℚ) : ℚ :=
  10 + 40 * |lx| + 20 * |az|

/-- Mirrors the loop in `velocityCallback`: set `current_power` of the
first component named "motors" and stop (the C++ loop breaks). -/
def setMotorPower (p : ℚ) : List PowerComponent → List PowerComponent
  | [] => []
  | c :: rest =>
      if c.name = "motors" then { c with current_power := p } :: rest
      else c :: setMotorPower p rest

/-- Mirrors `velocityCallback`. -/
def velocityCallback (lx az : ℚ) (st : PowerManager) : PowerManager :=
  { st with components := setMotorPower (motorPowerOf lx az) st.components }

/-- Mirrors `updatePowerConsumption`: sum `current_power` over enabled
components into `energy_state_.power_consumption`. -/
def totalEnabledPower (comps : List PowerComponent) : ℚ :=
  comps.foldl (fun acc c => if c.is_enabled then acc + c.current_power else acc) 0

/-- Mirrors `updatePowerConsumption` as a state update. -/
def updatePowerConsumption (st : PowerManager) : PowerManager :=
  { st with energy_state :=
      { st.energy_state with power_consumption := totalEnabledPower st.components } }

/-- Mirrors `determineTargetMode(soc, power_balance)`.  The C++ body also
reads the member fields `energy_state_.solar_generation` and
`current_mode_`; those two reads are passed here as the first two
arguments. -/
def determineTargetMode (solar_generation : ℚ) (current_mode : PowerMode)
    (soc power_balance : ℚ) : PowerMode :=
  if soc < 15 then .EMERGENCY
  else if solar_generation < 5 ∧ soc < 50 then .HIBERNATION
  else if soc < 30 ∨ power_balance < -10 then .LOW_POWER
  else if 40 < soc ∧ 0 < power_balance then .NORMAL
  else current_mode

/-- Mirrors `adjustComponentsForMode`. -/
def adjustComponentsForMode (mode : PowerMode) (comps : List PowerComponent) :
    List PowerComponent :=
  match mode with
  | .NORMAL => comps.map fun c => { c with is_enabled := true }
  | .LOW_POWER => comps.map fun c =>
      let c1 := if c.priority = .LOW then { c with is_enabled := false } else c
      if c1.name = "cameras" then { c1 with is_enabled := false } else c1
  | .HIBERNATION => comps.map fun c =>
      if c.priority ≠ .CRITICAL ∧ ¬ c.is_essential then { c with is_enabled := false }
      else c
  | .EMERGENCY => comps.map fun c =>
      if c.priority = .CRITICAL then { c with is_enabled := true }
      else { c with is_enabled := false }

/-- Mirrors `switchMode`: record the new mode in both places, publish the
mode string, adjust component enablement. -/
def switchMode (new_mode : PowerMode) (st : PowerManager) :
    PowerManager × List PubEvent :=
  ({ current_mode := new_mode
     energy_state := { st.energy_state with mode := new_mode }
     components := adjustComponentsForMode new_mode st.components },
   [.modeMsg (powerModeToString new_mode)])

/-- Mirrors the public `setMode`: switch only when the requested mode
differs from the current one. -/
def setMode (mode : PowerMode) (st : PowerManager) :
    PowerManager × List PubEvent :=
  if mode ≠ st.current_mode then switchMode mode st else (st, [])

/-- Comparator key order used by the `std::sort` call in `allocatePower`
(`a->priority < b->priority`), lifted to the index-tagged enabled list.
The non-strict form is the relation a correct output is sorted by. -/
def prioLe (a b : Nat × PowerComponent) : Prop :=
  a.2.priority.toNat ≤ b.2.priority.toNat

instance : DecidableRel prioLe := fun a b =>
  inferInstanceAs (Decidable (a.2.priority.toNat ≤ b.2.priority.toNat))

instance : IsTotal (Nat × PowerComponent) prioLe :=
  ⟨fun a b => Nat.le_total a.2.priority.toNat b.2.priority.toNat⟩

instance : IsTrans (Nat × PowerComponent) prioLe :=
  ⟨fun _ _ _ hab hbc => Nat.le_trans hab hbc⟩

/-- Enabled components of the registry tagged with their registry index
(the model of the pointer list `sorted_components`), sorted by ascending
priority.  `std::sort` is modeled by the stable `insertionSort`; which
permutation `std::sort` actually produces among equal priorities is
unspecified, see `sortContractOK` below. -/
def sortedEnabled (comps : List PowerComponent) : List (Nat × PowerComponent) :=
  List.insertionSort prioLe (comps.enum.filter fun p => p.2.is_enabled)

/-- Greedy walk of `allocatePower` over the sorted enabled list: assign
`nominal_power` while the budget covers it, else assign the remainder and
zero the budget. -/
def greedyAssign : ℚ → List (Nat × PowerComponent) → List (Nat × ℚ)
  | _, [] => []
  | b, (i, c) :: rest =>
      if c.nominal_power ≤ b then
        (i, c.nominal_power) :: greedyAssign (b - c.nominal_power) rest
      else
        (i, b) :: greedyAssign 0 rest

/-- Write the computed assignments back into the registry (the model of
the in-place pointer mutation `comp->current_power = ...`). -/
def applyAssign (asg : List (Nat × ℚ)) (comps : List PowerComponent) :
    List PowerComponent :=
  comps.enum.map fun p =>
    match asg.lookup p.1 with
    | some q => { p.2 with current_power := q }
    | none => p.2

/-- Mirrors `allocatePower`: the budget is the instantaneous
`solar_generation`; enabled components, sorted by ascending priority, are
served greedily. -/
def allocatePower (solar : ℚ) (comps : List PowerComponent) :
    List PowerComponent :=
  applyAssign (greedyAssign solar (sortedEnabled comps)) comps

/-- Mirrors `getCriticalPowerConsumption`: accumulate `current_power` over
enabled CRITICAL components. -/
def getCriticalPowerConsumption (comps : List PowerComponent) : ℚ :=
  comps.foldl
    (fun acc c =>
      if c.is_enabled ∧ c.priority = .CRITICAL then acc + c.current_power else acc) 0

/-- Mirrors `getAvailablePower`: `std::max(0, solar - critical)`. -/
def getAvailablePower (st : PowerManager) : ℚ :=
  max 0 (st.energy_state.solar_generation -
         getCriticalPowerConsumption st.components)

/-- Mirrors `managementLoop`: recompute consumption, evaluate the mode
state machine (switching only on change), allocate power, publish the
available-power budget. -/
def managementLoop (st : PowerManager) : PowerManager × List PubEvent :=
  let st1 := updatePowerConsumption st
  let power_balance :=
    st1.energy_state.solar_generation - st1.energy_state.power_consumption
  let target := determineTargetMode st1.energy_state.solar_generation
    st1.current_mode st1.energy_state.battery_soc power_balance
  let (st2, evs) :=
    if target ≠ st1.current_mode then switchMode target st1 else (st1, [])
  let st3 := { st2 with
    components := allocatePower st2.energy_state.solar_generation st2.components }
  (st3, evs ++ [.budgetMsg (getAvailablePower st3)])

/-- Externally visible entry points of the node: the three telemetry
callbacks, the management tick, and the public `setMode` request.  The
prediction tick only logs and is omitted from the state transition. -/
inductive Cmd where
  | battery (v : ℚ)
  | solar (w : ℚ)
  | velocity (lx az : ℚ)
  | tick
  | extSetMode (m : PowerMode)

/-- One entry-point invocation, published messages discarded. -/
def step (st : PowerManager) : Cmd → PowerManager
  | .battery v => (batteryCallback v st).1
  | .solar w => solarCallback w st
  | .velocity lx az => velocityCallback lx az st
  | .tick => (managementLoop st).1
  | .extSetMode m => (setMode m st).1

/-- State reached from the constructor state after a sequence of
entry-point invocations. -/
def run (cmds : List Cmd) : PowerManager :=
  cmds.foldl step initState

/-- Fully served entry: the pair `(index, nominal_power)`. -/
def fullServe (p : Nat × PowerComponent) : Nat × ℚ := (p.1, p.2.nominal_power)

/-- Starved entry: the pair `(index, 0)`. -/
def zeroServe (p : Nat × PowerComponent) : Nat × ℚ := (p.1, 0)

/-- Total nominal demand of an index-tagged component list. -/
def sumNominal (l : List (Nat × PowerComponent)) : ℚ :=
  (l.map fun p => p.2.nominal_power).sum

/-- Invariant carried through every entry point: CRITICAL components are
enabled and are not named "cameras". -/
def CriticalInv (comps : List PowerComponent) : Prop :=
  ∀ c ∈ comps, c.priority = ComponentPriority.CRITICAL →
    c.is_enabled = true ∧ c.name ≠ "cameras"

/-- Mode-decision rules exactly as worded in the specification (§4.1):
strict order, first match wins, else the current mode is kept.  Stated
over the four energy-state inputs the rules read. -/
def decideModeSpec (soc solar cons : ℚ) (current : PowerMode) : PowerMode :=
  if soc < 15 then .EMERGENCY
  else if solar < 5 ∧ soc < 50 then .HIBERNATION
  else if soc < 30 ∨ solar - cons < -10 then .LOW_POWER
  else if 40 < soc ∧ 0 < solar - cons then .NORMAL
  else current

/-- Output contract of the `std::sort` call in `allocatePower`: the output
is a permutation of the input that is sorted with respect to the strict
comparator `a->priority < b->priority`.  The C++ standard guarantees
nothing more for `std::sort`; in particular it does not promise a stable
order among equal-priority components. -/
def sortContractOK (input output : List (Nat × PowerComponent)) : Prop :=
  List.Perm output input ∧
  output.Pairwise fun a b => ¬ b.2.priority.toNat < a.2.priority.toNat

/-! ### General list helpers -/

/-- Looking a key up in an association list returns one of its entries. -/
theorem lookup_mem {γ : Type} {l : List (Nat × γ)} {i : Nat} {q : γ}
    (h : List.lookup i l = some q) : (i, q) ∈ l := by
  induction l with
  | nil => simp [List.lookup] at h
  | cons p rest ih =>
      obtain ⟨k, v⟩ := p
      by_cases hik : i = k
      · have hb : (i == k) = true := by simp [hik]
        simp [List.lookup, hb] at h
        simp [hik, h]
      · have hb : (i == k) = false := by simp [hik]
        simp [List.lookup, hb] at h
        exact List.mem_cons_of_mem _ (ih h)

/-- Every key present in an association list has a lookup result. -/
theorem mem_keys_lookup {γ : Type} {l : List (Nat × γ)} {i : Nat}
    (h : i ∈ l.map Prod.fst) : ∃ q, List.lookup i l = some q := by
  induction l with
  | nil => simp at h
  | cons p rest ih =>
      obtain ⟨k, v⟩ := p
      by_cases hik : i = k
      · have hb : (i == k) = true := by simp [hik]
        exact ⟨v, by simp [List.lookup, hb]⟩
      · have hb : (i == k) = false := by simp [hik]
        rw [List.map_cons] at h
        rcases List.mem_cons.mp h with h1 | h1
        · exact absurd h1 hik
        · simpa [List.lookup, hb] using ih h1

/-- In an association list with distinct keys, the key determines the entry. -/
theorem keys_inj {γ : Type} {l : List (Nat × γ)} {i : Nat} {a b : γ}
    (hnd : (l.map Prod.fst).Nodup) (ha : (i, a) ∈ l) (hb : (i, b) ∈ l) : a = b := by
  induction l with
  | nil => simp at ha
  | cons p rest ih =>
      simp only [List.map_cons, List.nodup_cons] at hnd
      rcases List.mem_cons.mp ha with ha1 | ha1 <;>
        rcases List.mem_cons.mp hb with hb1 | hb1
      · rw [← ha1] at hb1; exact (Prod.mk.injEq _ _ _ _ ▸ hb1).2.symm
      · exact absurd (by simpa using List.mem_map_of_mem Prod.fst hb1)
          (by rw [← ha1] at hnd; exact fun hc => hnd.1 (by simpa using hc))
      · exact absurd (by simpa using List.mem_map_of_mem Prod.fst ha1)
          (by rw [← hb1] at hnd; exact fun hc => hnd.1 (by simpa using hc))
      · exact ih hnd.2 ha1 hb1

/-- Right-to-left membership transfer along a `Forall₂`. -/
theorem forall2_mem_right {α β : Type} {R : α → β → Prop} :
    ∀ {l₁ : List α} {l₂ : List β}, List.Forall₂ R l₁ l₂ →
      ∀ {b}, b ∈ l₂ → ∃ a ∈ l₁, R a b := by
  intro l₁ l₂ h
  induction h with
  | nil => intro b hb; simp at hb
  | cons hR _ ih =>
      intro b hb
      rcases List.mem_cons.mp hb with hb1 | hb1
      · exact ⟨_, List.mem_cons_self _ _, hb1 ▸ hR⟩
      · obtain ⟨a, ha, har⟩ := ih hb1
        exact ⟨a, List.mem_cons_of_mem _ ha, har⟩

/-- Entries of `List.enum` are entries of the underlying list. -/
theorem enum_snd_mem {α : Type} {l : List α} {i : Nat} {c : α}
    (h : (i, c) ∈ l.enum) : c ∈ l := by
  have := List.mem_enum_iff_getElem?.mp h
  exact List.get?_mem (by simpa [List.get?_eq_getElem?] using this)

/-- Filtering an enumerated list on its payload and dropping the indices is
filtering the underlying list. -/
theorem enumFrom_filter_snd_map {α : Type} (p : α → Bool) :
    ∀ (n : Nat) (l : List α),
      (((List.enumFrom n l).filter fun q => p q.2).map Prod.snd) = l.filter p := by
  intro n l
  induction l generalizing n with
  | nil => simp
  | cons a rest ih =>
      by_cases h : p a <;> simp [List.filter_cons, h, ih]

/-- Accumulating a guarded `foldl` sum is summing over the filtered list. -/
theorem foldl_if_sum {α : Type} (p : α → Prop) [DecidablePred p] (f : α → ℚ) :
    ∀ (l : List α) (a : ℚ),
      l.foldl (fun acc c => if p c then acc + f c else acc) a =
        a + ((l.filter fun c => p c).map f).sum := by
  intro l
  induction l with
  | nil => simp
  | cons c rest ih =>
      intro a
      by_cases h : p c <;> simp [List.filter_cons, h, ih, add_assoc]

/-! ### Properties of the greedy allocation walk -/

/-- The greedy walk keeps the keys of its input. -/
theorem greedyAssign_keys :
    ∀ (b : ℚ) (l : List (Nat × PowerComponent)),
      (greedyAssign b l).map Prod.fst = l.map Prod.fst := by
  intro b l
  induction l generalizing b with
  | nil => rfl
  | cons p rest ih =>
      obtain ⟨i, c⟩ := p
      by_cases h : c.nominal_power ≤ b <;> simp [greedyAssign, h, ih]

/-- With a nonnegative budget and nonnegative demands, every assignment of
the greedy walk is between 0 and the nominal power of its component. -/
theorem greedyAssign_bounds :
    ∀ (b : ℚ) (l : List (Nat × PowerComponent)), 0 ≤ b →
      (∀ p ∈ l, 0 ≤ p.2.nominal_power) →
      List.Forall₂ (fun p a => p.1 = a.1 ∧ 0 ≤ a.2 ∧ a.2 ≤ p.2.nominal_power)
        l (greedyAssign b l) := by
  intro b l
  induction l generalizing b with
  | nil => intro _ _; simp [greedyAssign]
  | cons p rest ih =>
      intro hb hn
      obtain ⟨i, c⟩ := p
      have hc : 0 ≤ c.nominal_power := hn (i, c) (List.mem_cons_self _ _)
      have hrest : ∀ p ∈ rest, 0 ≤ p.2.nominal_power :=
        fun p hp => hn p (List.mem_cons_of_mem _ hp)
      by_cases h : c.nominal_power ≤ b
      · rw [show greedyAssign b ((i, c) :: rest) =
              (i, c.nominal_power) :: greedyAssign (b - c.nominal_power) rest from by
            simp [greedyAssign, h]]
        exact List.Forall₂.cons ⟨rfl, hc, le_refl _⟩
          (ih (b - c.nominal_power) (by linarith) hrest)
      · rw [show greedyAssign b ((i, c) :: rest) = (i, b) :: greedyAssign 0 rest from by
            simp [greedyAssign, h]]
        exact List.Forall₂.cons ⟨rfl, hb, by linarith [lt_of_not_le h]⟩
          (ih 0 (le_refl 0) hrest)

/-- When the budget covers the whole demand, the greedy walk fully serves
every entry. -/
theorem greedyAssign_full :
    ∀ (b : ℚ) (l : List (Nat × PowerComponent)),
      (∀ p ∈ l, 0 ≤ p.2.nominal_power) → sumNominal l ≤ b →
      greedyAssign b l = l.map fullServe := by
  intro b l
  induction l generalizing b with
  | nil => intro _ _; rfl
  | cons p rest ih =>
      intro hn hsum
      obtain ⟨i, c⟩ := p
      have hrest : ∀ p ∈ rest, 0 ≤ p.2.nominal_power :=
        fun p hp => hn p (List.mem_cons_of_mem _ hp)
      have hsr : 0 ≤ sumNominal rest := by
        refine List.sum_nonneg ?_
        intro q hq
        obtain ⟨p, hp, rfl⟩ := List.mem_map.mp hq
        exact hrest p hp
      have he : sumNominal ((i, c) :: rest) = c.nominal_power + sumNominal rest := by
        simp [sumNominal]
      rw [he] at hsum
      have hcb : c.nominal_power ≤ b := by linarith
      have hrb : sumNominal rest ≤ b - c.nominal_power := by linarith
      simp [greedyAssign, hcb, ih (b - c.nominal_power) hrest hrb, fullServe]

/-- With a zero budget and nonnegative demands, the greedy walk assigns 0
to every entry. -/
theorem greedyAssign_zero :
    ∀ (l : List (Nat × PowerComponent)), (∀ p ∈ l, 0 ≤ p.2.nominal_power) →
      greedyAssign 0 l = l.map zeroServe := by
  intro l
  induction l with
  | nil => intro _; rfl
  | cons p rest ih =>
      intro hn
      obtain ⟨i, c⟩ := p
      have hrest : ∀ p ∈ rest, 0 ≤ p.2.nominal_power :=
        fun p hp => hn p (List.mem_cons_of_mem _ hp)
      by_cases h : c.nominal_power ≤ 0
      · have hz : c.nominal_power = 0 :=
          le_antisymm h (hn (i, c) (List.mem_cons_self _ _))
        simp [greedyAssign, h, hz, ih hrest, zeroServe]
      · simp [greedyAssign, h, ih hrest, zeroServe]

/-- When the budget is short of the total demand, the sorted walk splits:
a fully served prefix, one entry given the remainder, and a starved tail. -/
theorem greedyAssign_shortfall :
    ∀ (b : ℚ) (l : List (Nat × PowerComponent)), 0 ≤ b →
      (∀ p ∈ l, 0 ≤ p.2.nominal_power) → b < sumNominal l →
      ∃ pre p post, l = pre ++ p :: post ∧
        sumNominal pre ≤ b ∧ b < sumNominal pre + p.2.nominal_power ∧
        greedyAssign b l =
          pre.map fullServe ++ (p.1, b - sumNominal pre) :: post.map zeroServe := by
  intro b l
  induction l generalizing b with
  | nil =>
      intro hb _ hlt
      exact absurd hlt (by simp [sumNominal]; linarith)
  | cons p rest ih =>
      intro hb hn hlt
      obtain ⟨i, c⟩ := p
      have hrest : ∀ p ∈ rest, 0 ≤ p.2.nominal_power :=
        fun p hp => hn p (List.mem_cons_of_mem _ hp)
      have hsum : sumNominal ((i, c) :: rest) = c.nominal_power + sumNominal rest := by
        simp [sumNominal]
      rw [hsum] at hlt
      by_cases h : c.nominal_power ≤ b
      · obtain ⟨pre, q, post, hsplit, hle, hltq, heq⟩ :=
          ih (b - c.nominal_power) (by linarith) hrest (by linarith)
        have hppre : sumNominal ((i, c) :: pre) = c.nominal_power + sumNominal pre := by
          simp [sumNominal]
        refine ⟨(i, c) :: pre, q, post, by simp [hsplit], ?_, ?_, ?_⟩
        · rw [hppre]; linarith
        · rw [hppre]; linarith
        · have hrem : b - sumNominal ((i, c) :: pre) =
              b - c.nominal_power - sumNominal pre := by rw [hppre]; ring
          rw [hrem]
          simp [greedyAssign, h, heq, fullServe]
      · refine ⟨[], (i, c), rest, rfl, ?_, ?_, ?_⟩
        · simpa [sumNominal] using hb
        · have : sumNominal ([] : List (Nat × PowerComponent)) = 0 := by simp [sumNominal]
          rw [this]; linarith [lt_of_not_le h]
        · have : sumNominal ([] : List (Nat × PowerComponent)) = 0 := by simp [sumNominal]
          rw [this]
          simp [greedyAssign, h, greedyAssign_zero rest hrest]

/-! ### Bridge between the sorted walk and the registry write-back -/

/-- The sorted walk list is a permutation of the enabled entries of the
enumerated registry. -/
theorem sortedEnabled_perm (comps : List PowerComponent) :
    List.Perm (sortedEnabled comps) (comps.enum.filter fun p => p.2.is_enabled) :=
  List.perm_insertionSort prioLe _

/-- The sorted walk list is sorted by ascending priority. -/
theorem sortedEnabled_sorted (comps : List PowerComponent) :
    List.Sorted prioLe (sortedEnabled comps) :=
  List.sorted_insertionSort prioLe _

/-- The registry indices carried through the sorted walk are distinct. -/
theorem sortedEnabled_keys_nodup (comps : List PowerComponent) :
    ((sortedEnabled comps).map Prod.fst).Nodup := by
  have h1 : ((comps.enum.filter fun p => p.2.is_enabled).map Prod.fst).Nodup :=
    List.Nodup.sublist (List.Sublist.map Prod.fst (List.filter_sublist comps.enum))
      (List.nodup_enum_map_fst comps)
  exact (((sortedEnabled_perm comps).map Prod.fst).nodup_iff).mpr h1

/-- Membership in the sorted walk for an enabled registry entry. -/
theorem mem_sortedEnabled {comps : List PowerComponent} {i : Nat}
    {c : PowerComponent} (hmem : (i, c) ∈ comps.enum) (hen : c.is_enabled = true) :
    (i, c) ∈ sortedEnabled comps := by
  refine ((sortedEnabled_perm comps).mem_iff).mpr ?_
  exact List.mem_filter.mpr ⟨hmem, by simp [hen]⟩

/-- Nominal powers stay nonnegative when passing to the sorted walk. -/
theorem sortedEnabled_nominal_nonneg {comps : List PowerComponent}
    (hn : ∀ c ∈ comps, 0 ≤ c.nominal_power) :
    ∀ p ∈ sortedEnabled comps, 0 ≤ p.2.nominal_power := by
  intro p hp
  have hf : p ∈ comps.enum.filter fun q => q.2.is_enabled :=
    ((sortedEnabled_perm comps).mem_iff).mp hp
  have he : p ∈ comps.enum := (List.mem_filter.mp hf).1
  obtain ⟨i, c⟩ := p
  exact hn c (enum_snd_mem he)

/-- Decomposition of a member of the written-back registry: it comes from
an enumerated registry entry, with `current_power` overwritten exactly
when the greedy walk assigned that index. -/
theorem mem_allocatePower {b : ℚ} {comps : List PowerComponent}
    {c' : PowerComponent} (h : c' ∈ allocatePower b comps) :
    ∃ i c, (i, c) ∈ comps.enum ∧
      ((∃ q, (greedyAssign b (sortedEnabled comps)).lookup i = some q ∧
          c' = { c with current_power := q }) ∨
        ((greedyAssign b (sortedEnabled comps)).lookup i = none ∧ c' = c)) := by
  obtain ⟨p, hp, hc'⟩ := List.mem_map.mp h
  obtain ⟨i, c⟩ := p
  refine ⟨i, c, hp, ?_⟩
  cases hq : (greedyAssign b (sortedEnabled comps)).lookup i with
  | none =>
      right
      exact ⟨rfl, by rw [← hc']; simp [hq]⟩
  | some q =>
      left
      exact ⟨q, rfl, by rw [← hc']; simp [hq]⟩

/-- For an enabled registry entry the greedy walk always produces an
assignment, and that assignment is found by the write-back lookup. -/
theorem alloc_enabled_lookup (b : ℚ) {comps : List PowerComponent} {i : Nat}
    {c : PowerComponent} (hmem : (i, c) ∈ comps.enum) (hen : c.is_enabled = true) :
    ∃ q, (greedyAssign b (sortedEnabled comps)).lookup i = some q ∧
      (i, q) ∈ greedyAssign b (sortedEnabled comps) := by
  have hs : (i, c) ∈ sortedEnabled comps := mem_sortedEnabled hmem hen
  have hkey : i ∈ (greedyAssign b (sortedEnabled comps)).map Prod.fst := by
    rw [greedyAssign_keys]
    exact List.mem_map_of_mem Prod.fst hs
  obtain ⟨q, hq⟩ := mem_keys_lookup hkey
  exact ⟨q, hq, lookup_mem hq⟩

/-! ### Frame preservation and the CRITICAL-enabled invariant -/

/-- The motor-power write changes no name, priority or enablement. -/
theorem setMotorPower_frame (p : ℚ) :
    ∀ (comps : List PowerComponent) (c' : PowerComponent),
      c' ∈ setMotorPower p comps →
      ∃ c ∈ comps, c'.name = c.name ∧ c'.priority = c.priority ∧
        c'.is_enabled = c.is_enabled := by
  intro comps
  induction comps with
  | nil => intro c' h; simp [setMotorPower] at h
  | cons c rest ih =>
      intro c' h
      by_cases hname : c.name = "motors"
      · simp only [setMotorPower, if_pos hname] at h
        rcases List.mem_cons.mp h with h1 | h1
        · exact ⟨c, List.mem_cons_self _ _, by simp [h1]⟩
        · exact ⟨c', List.mem_cons_of_mem _ h1, rfl, rfl, rfl⟩
      · simp only [setMotorPower, if_neg hname] at h
        rcases List.mem_cons.mp h with h1 | h1
        · exact ⟨c, List.mem_cons_self _ _, by simp [h1]⟩
        · obtain ⟨c₀, hc₀, he⟩ := ih c' h1
          exact ⟨c₀, List.mem_cons_of_mem _ hc₀, he⟩

/-- The allocator write-back changes no name, priority or enablement. -/
theorem allocatePower_frame (b : ℚ) (comps : List PowerComponent)
    (c' : PowerComponent) (h : c' ∈ allocatePower b comps) :
    ∃ c ∈ comps, c'.name = c.name ∧ c'.priority = c.priority ∧
      c'.is_enabled = c.is_enabled := by
  obtain ⟨i, c, hmem, hcase⟩ := mem_allocatePower h
  refine ⟨c, enum_snd_mem hmem, ?_⟩
  rcases hcase with ⟨q, _, rfl⟩ | ⟨_, rfl⟩ <;> exact ⟨rfl, rfl, rfl⟩

/-- Every mode adjustment preserves the CRITICAL invariant. -/
theorem adjust_preserves_inv (mode : PowerMode) (comps : List PowerComponent)
    (hinv : CriticalInv comps) : CriticalInv (adjustComponentsForMode mode comps) := by
  intro c' hc' hprio
  cases mode with
  | NORMAL =>
      obtain ⟨c, hc, rfl⟩ := List.mem_map.mp hc'
      exact ⟨rfl, (hinv c hc (by simpa using hprio)).2⟩
  | LOW_POWER =>
      obtain ⟨c, hc, rfl⟩ := List.mem_map.mp hc'
      have hp : c.priority = ComponentPriority.CRITICAL := by
        by_cases h1 : c.priority = ComponentPriority.LOW <;>
          by_cases h2 : c.name = "cameras" <;>
            simpa [h1, h2] using hprio
      obtain ⟨hen, hname⟩ := hinv c hc hp
      have h1 : ¬ c.priority = ComponentPriority.LOW := by simp [hp]
      simpa [h1, hname, hen]
  | HIBERNATION =>
      obtain ⟨c, hc, rfl⟩ := List.mem_map.mp hc'
      by_cases h1 : c.priority ≠ ComponentPriority.CRITICAL ∧ ¬ (c.is_essential = true)
      · rw [if_pos h1] at hprio
        exact absurd hprio h1.1
      · rw [if_neg h1] at hprio ⊢
        exact hinv c hc hprio
  | EMERGENCY =>
      obtain ⟨c, hc, rfl⟩ := List.mem_map.mp hc'
      by_cases h1 : c.priority = ComponentPriority.CRITICAL
      · rw [if_pos h1] at hprio ⊢
        exact ⟨rfl, (hinv c hc h1).2⟩
      · rw [if_neg h1] at hprio
        exact absurd hprio h1

/-- A transformation that only preserves name, priority and enablement
preserves the CRITICAL invariant. -/
theorem inv_of_frame {comps comps' : List PowerComponent}
    (hframe : ∀ c' ∈ comps', ∃ c ∈ comps, c'.name = c.name ∧
      c'.priority = c.priority ∧ c'.is_enabled = c.is_enabled)
    (hinv : CriticalInv comps) : CriticalInv comps' := by
  intro c' hc' hprio
  obtain ⟨c, hc, hname, hpr, hen⟩ := hframe c' hc'
  obtain ⟨he, hn⟩ := hinv c hc (hpr ▸ hprio)
  exact ⟨hen.trans he, hname ▸ hn⟩

/-- Every entry point preserves the CRITICAL invariant. -/
theorem step_preserves_inv (st : PowerManager) (cmd : Cmd)
    (hinv : CriticalInv st.components) : CriticalInv (step st cmd).components := by
  cases cmd with
  | battery v => exact hinv
  | solar w => exact hinv
  | velocity lx az =>
      exact inv_of_frame (setMotorPower_frame (motorPowerOf lx az) st.components) hinv
  | tick =>
      simp only [step, managementLoop, updatePowerConsumption]
      split
      · exact inv_of_frame (fun c' hc' => allocatePower_frame _ _ c' hc')
          (adjust_preserves_inv _ _ hinv)
      · exact inv_of_frame (fun c' hc' => allocatePower_frame _ _ c' hc') hinv
  | extSetMode m =>
      simp only [step, setMode]
      split
      · exact adjust_preserves_inv _ _ hinv
      · exact hinv

/-- The CRITICAL invariant holds along every run. -/
theorem run_inv (cmds : List Cmd) : CriticalInv (run cmds).components := by
  have hfold : ∀ (l : List Cmd) (st : PowerManager), CriticalInv st.components →
      CriticalInv (l.foldl step st).components := by
    intro l
    induction l with
    | nil => intro st h; exact h
    | cons cmd rest ih =>
        intro st h
        exact ih (step st cmd) (step_preserves_inv st cmd h)
  refine hfold cmds initState ?_
  intro c hc hprio
  fin_cases hc <;> simp_all [initComponents]

/-! ### Claim theorems -/

/-- Claim C2: `determineTargetMode` is a pure function of the energy
state fields (soc, solar generation, consumption) and the current mode,
whose rules coincide, in order and with first match winning, with the
specification rules `decideModeSpec`: EMERGENCY below soc 15, then
HIBERNATION when solar < 5 and soc < 50, then LOW_POWER when soc < 30 or
the balance drops below -10, then NORMAL when soc > 40 with a positive
balance, else the current mode. -/
theorem C2_decideMode_rules (soc solar cons : ℚ) (m : PowerMode) :
    determineTargetMode solar m soc (solar - cons) = decideModeSpec soc solar cons m := rfl

/-- Claim C4, counterexample: at soc 35 (inside `(30,40]`) and power
balance 0 (inside `[-10,0]`) with zero solar generation, the decision is
HIBERNATION, not the unchanged current mode NORMAL: the hibernation rule
fires before the hysteresis band is reached. -/
theorem C4_counterexample :
    30 < (35 : ℚ) ∧ (35 : ℚ) ≤ 40 ∧ -10 ≤ (0 : ℚ) ∧ (0 : ℚ) ≤ 0 ∧
    determineTargetMode 0 PowerMode.NORMAL 35 0 = PowerMode.HIBERNATION ∧
    determineTargetMode 0 PowerMode.NORMAL 35 0 ≠ PowerMode.NORMAL := by
  refine ⟨by norm_num, by norm_num, by norm_num, le_refl 0, ?_, ?_⟩
  · rw [show determineTargetMode 0 PowerMode.NORMAL 35 0 = PowerMode.HIBERNATION from by
      unfold determineTargetMode
      rw [if_neg (by norm_num), if_pos (by norm_num)]]
  · rw [show determineTargetMode 0 PowerMode.NORMAL 35 0 = PowerMode.HIBERNATION from by
      unfold determineTargetMode
      rw [if_neg (by norm_num), if_pos (by norm_num)]]
    simp

/-- Claim C4, amended: for every energy state with soc in `(30,40]`, power
balance in `[-10,0]` and solar generation at least 5 (so the hibernation
rule cannot fire), `determineTargetMode` returns the current mode
unchanged for every current mode, and repeating the decision on the same
inputs stays at that mode (no oscillation). -/
theorem C4_hysteresis_band (soc solar cons : ℚ) (m : PowerMode)
    (h1 : 30 < soc) (h2 : soc ≤ 40)
    (h3 : -10 ≤ solar - cons) (h4 : solar - cons ≤ 0) (h5 : 5 ≤ solar) :
    determineTargetMode solar m soc (solar - cons) = m ∧
    determineTargetMode solar (determineTargetMode solar m soc (solar - cons))
      soc (solar - cons) = m := by
  have he : determineTargetMode solar m soc (solar - cons) = m := by
    unfold determineTargetMode
    rw [if_neg (by push_neg; linarith), if_neg ?_, if_neg ?_, if_neg ?_]
    · rintro ⟨ha, hb⟩; linarith
    · rintro (ha | ha) <;> linarith
    · rintro ⟨ha, hb⟩; linarith
  refine ⟨he, ?_⟩
  rw [he]
  exact he ▸ he

/-- Claim C4, witness: a concrete point of the hysteresis band (soc 35,
solar 5, consumption 5) keeps the current mode LOW_POWER. -/
theorem C4_witness :
    determineTargetMode 5 PowerMode.LOW_POWER 35 (5 - 5) = PowerMode.LOW_POWER :=
  (C4_hysteresis_band 35 5 5 PowerMode.LOW_POWER (by norm_num) (by norm_num)
    (by norm_num) (by norm_num) (by norm_num)).1

/-- Claim C6: the EMERGENCY adjustment leaves exactly the
CRITICAL-priority components enabled and disables every other component,
whatever the previous enablement was, and it changes no other field. -/
theorem C6_emergency_exactly_critical (comps : List PowerComponent) :
    List.Forall₂ (fun c c' =>
      (c'.is_enabled = true ↔ c.priority = ComponentPriority.CRITICAL) ∧
      c'.name = c.name ∧ c'.priority = c.priority ∧
      c'.nominal_power = c.nominal_power ∧ c'.current_power = c.current_power ∧
      c'.is_essential = c.is_essential)
      comps (adjustComponentsForMode PowerMode.EMERGENCY comps) := by
  induction comps with
  | nil => exact List.Forall₂.nil
  | cons c rest ih =>
      refine List.Forall₂.cons ?_ ih
      by_cases h1 : c.priority = ComponentPriority.CRITICAL <;> simp [h1]

/-- Claim C7: requesting the mode already active is a no-op: the state is
returned untouched (mode, energy state and every component field) and no
mode-change message is published. -/
theorem C7_setMode_idempotent (st : PowerManager) :
    setMode st.current_mode st = (st, []) := by
  simp [setMode]

/-- Claim C8: the battery callback stores the voltage and sets
`battery_soc` to `clamp(((v - 24) / 5.4) * 100, 0, 100)`; the computed SOC
is always within `[0, 100]` and is monotone non-decreasing in the
voltage. -/
theorem C8_soc_clamped_monotone :
    (∀ (v : ℚ) (st : PowerManager),
        (batteryCallback v st).1.energy_state.battery_soc = socOfVoltage v ∧
        (batteryCallback v st).1.energy_state.voltage = v ∧
        (batteryCallback v st).2 = [PubEvent.socMsg (socOfVoltage v)]) ∧
    (∀ v : ℚ, socOfVoltage v = clampQ (((v - 24) / (27/5)) * 100) 0 100) ∧
    (∀ v : ℚ, 0 ≤ socOfVoltage v ∧ socOfVoltage v ≤ 100) ∧
    (∀ v₁ v₂ : ℚ, v₁ ≤ v₂ → socOfVoltage v₁ ≤ socOfVoltage v₂) := by
  refine ⟨fun v st => ⟨rfl, rfl, rfl⟩, fun v => rfl, ?_, ?_⟩
  · intro v
    unfold socOfVoltage clampQ
    split_ifs with h1 h2
    · exact ⟨le_refl 0, by norm_num⟩
    · exact ⟨by norm_num, le_refl 100⟩
    · push_neg at h1 h2; exact ⟨h1, h2⟩
  · intro v₁ v₂ h
    have hf : ((v₁ - 24) / (27/5)) * 100 ≤ ((v₂ - 24) / (27/5)) * 100 := by
      have e1 : ((v₁ - 24) / (27/5)) * 100 = (v₁ - 24) * (500/27) := by ring
      have e2 : ((v₂ - 24) / (27/5)) * 100 = (v₂ - 24) * (500/27) := by ring
      rw [e1, e2]
      exact mul_le_mul_of_nonneg_right (by linarith) (by norm_num)
    unfold socOfVoltage clampQ
    split_ifs <;> linarith

/-- Claim C8, witness: the SOC at 25 volts is at most the SOC at 26
volts. -/
theorem C8_witness : socOfVoltage 25 ≤ socOfVoltage 26 :=
  C8_soc_clamped_monotone.2.2.2 25 26 (by norm_num)

/-- Claim C9: the reported available power equals
`max(0, solar_generation - criticalConsumption)`, where the critical
consumption is the sum of `current_power` over enabled CRITICAL
components, and the reported budget is never negative. -/
theorem C9_available_power :
    (∀ st : PowerManager,
        getAvailablePower st = max 0 (st.energy_state.solar_generation -
          getCriticalPowerConsumption st.components) ∧
        0 ≤ getAvailablePower st) ∧
    (∀ comps : List PowerComponent, getCriticalPowerConsumption comps =
        ((comps.filter fun c =>
            c.is_enabled ∧ c.priority = ComponentPriority.CRITICAL).map
          fun c => c.current_power).sum) := by
  refine ⟨fun st => ⟨rfl, le_max_left 0 _⟩, fun comps => ?_⟩
  have h := foldl_if_sum
    (fun c : PowerComponent => c.is_enabled ∧ c.priority = ComponentPriority.CRITICAL)
    (fun c => c.current_power) comps 0
  simpa [getCriticalPowerConsumption] using h

/-- Claim C10: in every state reachable from the constructor state by any
sequence of telemetry callbacks, management ticks and external mode
requests, every CRITICAL-priority component is enabled. -/
theorem C10_critical_always_enabled (cmds : List Cmd) (c : PowerComponent)
    (hc : c ∈ (run cmds).components)
    (hp : c.priority = ComponentPriority.CRITICAL) : c.is_enabled = true :=
  (run_inv cmds c hc hp).1

/-- Claim C10, witness: in the initial state the CRITICAL component
"communication" is present and enabled. -/
theorem C10_witness :
    ∃ c ∈ (run []).components,
      c.priority = ComponentPriority.CRITICAL ∧ c.is_enabled = true := by
  refine ⟨⟨"communication", ComponentPriority.CRITICAL, 15, 15, true, true⟩,
    ?_, rfl, ?_⟩
  · show _ ∈ initComponents
    simp [initComponents]
  · exact C10_critical_always_enabled []
      ⟨"communication", ComponentPriority.CRITICAL, 15, 15, true, true⟩
      (by show _ ∈ initComponents; simp [initComponents]) rfl

/-- Claim C5: the output contract of the `std::sort` call admits, for two
enabled equal-priority registry entries (lidar and cameras, both MEDIUM),
both the registry order and the swapped order; stability is therefore not
guaranteed by the code, although the specification requires it. -/
theorem C5_sort_contract_admits_unstable :
    sortContractOK
      [(4, ⟨"lidar", ComponentPriority.MEDIUM, 20, 20, true, false⟩),
       (5, ⟨"cameras", ComponentPriority.MEDIUM, 15, 15, true, false⟩)]
      [(4, ⟨"lidar", ComponentPriority.MEDIUM, 20, 20, true, false⟩),
       (5, ⟨"cameras", ComponentPriority.MEDIUM, 15, 15, true, false⟩)] ∧
    sortContractOK
      [(4, ⟨"lidar", ComponentPriority.MEDIUM, 20, 20, true, false⟩),
       (5, ⟨"cameras", ComponentPriority.MEDIUM, 15, 15, true, false⟩)]
      [(5, ⟨"cameras", ComponentPriority.MEDIUM, 15, 15, true, false⟩),
       (4, ⟨"lidar", ComponentPriority.MEDIUM, 20, 20, true, false⟩)] ∧
    [(5, (⟨"cameras", ComponentPriority.MEDIUM, 15, 15, true, false⟩ : PowerComponent)),
     (4, ⟨"lidar", ComponentPriority.MEDIUM, 20, 20, true, false⟩)] ≠
    [(4, ⟨"lidar", ComponentPriority.MEDIUM, 20, 20, true, false⟩),
     (5, ⟨"cameras", ComponentPriority.MEDIUM, 15, 15, true, false⟩)] := by
  refine ⟨⟨List.Perm.refl _, ?_⟩, ⟨List.Perm.swap _ _ _, ?_⟩, ?_⟩
  · exact List.pairwise_pair.mpr (by decide)
  · exact List.pairwise_pair.mpr (by decide)
  · decide

/-- Claim C1, counterexample: the motion-command update violates the
claimed invariant `current_power ≤ nominal_power`.  After the single
reachable step `velocityCallback(linear.x = 2, angular.z = 0)`, the
"motors" component carries `current_power = 10 + 40*2 = 90`, above its
nominal 50 W. -/
theorem C1_counterexample :
    ∃ c ∈ (run [Cmd.velocity 2 0]).components,
      c.name = "motors" ∧ c.nominal_power < c.current_power := by
  have hmp : motorPowerOf 2 0 = 90 := by
    unfold motorPowerOf
    rw [abs_of_nonneg (by norm_num : (0:ℚ) ≤ 2), abs_zero]
    norm_num
  have hrun : (run [Cmd.velocity 2 0]).components
      = setMotorPower (motorPowerOf 2 0) initComponents := rfl
  rw [hrun, hmp]
  refine ⟨⟨"motors", ComponentPriority.HIGH, 50, 90, true, true⟩, ?_, rfl, by norm_num⟩
  decide

/-- Claim C1, amended: the allocator's write-back keeps every enabled
component's `current_power` within `[0, nominal_power]` whenever the
budget is nonnegative and nominal powers are nonnegative; the
motion-command update always writes at least 10 W (hence never a negative
power) to the motors component, but it is not clamped to the nominal
power, so the upper bound fails for reachable states
(`C1_counterexample`). -/
theorem C1_alloc_bounds (b : ℚ) (comps : List PowerComponent)
    (hb : 0 ≤ b) (hn : ∀ c ∈ comps, 0 ≤ c.nominal_power) :
    (∀ c' ∈ allocatePower b comps, c'.is_enabled = true →
        0 ≤ c'.current_power ∧ c'.current_power ≤ c'.nominal_power) ∧
    (∀ lx az : ℚ, 10 ≤ motorPowerOf lx az) := by
  constructor
  · intro c' hc' hen
    obtain ⟨i, c, hmem, hcase⟩ := mem_allocatePower hc'
    rcases hcase with ⟨q, hlook, rfl⟩ | ⟨hnone, rfl⟩
    · have henc : c.is_enabled = true := hen
      have hq : (i, q) ∈ greedyAssign b (sortedEnabled comps) := lookup_mem hlook
      have hf2 := greedyAssign_bounds b (sortedEnabled comps) hb
        (sortedEnabled_nominal_nonneg hn)
      obtain ⟨p, hpmem, hR⟩ := forall2_mem_right hf2 hq
      obtain ⟨j, c₂⟩ := p
      obtain ⟨hji, hq0, hqle⟩ := hR
      have hji' : j = i := hji
      subst hji'
      have hc₂ : c₂ = c :=
        keys_inj (sortedEnabled_keys_nodup comps) hpmem (mem_sortedEnabled hmem henc)
      rw [hc₂] at hqle
      exact ⟨hq0, hqle⟩
    · obtain ⟨q, hsome, _⟩ := alloc_enabled_lookup b hmem hen
      rw [hsome] at hnone
      cases hnone
  · intro lx az
    unfold motorPowerOf
    have h1 : (0:ℚ) ≤ 40 * |lx| := mul_nonneg (by norm_num) (abs_nonneg lx)
    have h2 : (0:ℚ) ≤ 20 * |az| := mul_nonneg (by norm_num) (abs_nonneg az)
    linarith

/-- Claim C1, witness: on a one-component registry with budget 7 the
allocator serves the 5 W component fully, and the served power lies in
`[0, nominal]`. -/
theorem C1_witness :
    ∃ c ∈ allocatePower 7 [⟨"x", ComponentPriority.CRITICAL, 5, 3, true, true⟩],
      c.is_enabled = true ∧ 0 ≤ c.current_power ∧
      c.current_power ≤ c.nominal_power := by
  have hmem : (⟨"x", ComponentPriority.CRITICAL, 5, 5, true, true⟩ : PowerComponent)
      ∈ allocatePower 7 [⟨"x", ComponentPriority.CRITICAL, 5, 3, true, true⟩] := by
    decide
  exact ⟨_, hmem, rfl,
    (C1_alloc_bounds 7 _ (by norm_num) (by decide)).1 _ hmem rfl⟩

/-- Claim C3: the allocator walks the enabled components in ascending
priority order (the walked list is a priority-sorted permutation of the
enabled registry entries); with a budget covering the total enabled
nominal demand every enabled component receives exactly its nominal
power; with budget 0 every enabled component receives 0; with an
insufficient budget the sorted walk splits into a fully served prefix,
one first under-served entry receiving exactly the remaining budget, and
a tail receiving 0.  The total demand of the walk equals the sum of
nominal powers over enabled registry components. -/
theorem C3_allocator (b : ℚ) (comps : List PowerComponent)
    (hb : 0 ≤ b) (hn : ∀ c ∈ comps, 0 ≤ c.nominal_power) :
    (List.Sorted prioLe (sortedEnabled comps) ∧
      List.Perm (sortedEnabled comps) (comps.enum.filter fun p => p.2.is_enabled)) ∧
    (sumNominal (sortedEnabled comps) ≤ b →
      ∀ c' ∈ allocatePower b comps, c'.is_enabled = true →
        c'.current_power = c'.nominal_power) ∧
    (∀ c' ∈ allocatePower 0 comps, c'.is_enabled = true → c'.current_power = 0) ∧
    (b < sumNominal (sortedEnabled comps) →
      ∃ pre p post, sortedEnabled comps = pre ++ p :: post ∧
        sumNominal pre ≤ b ∧ b < sumNominal pre + p.2.nominal_power ∧
        greedyAssign b (sortedEnabled comps) =
          pre.map fullServe ++ (p.1, b - sumNominal pre) :: post.map zeroServe) ∧
    sumNominal (sortedEnabled comps) =
      ((comps.filter fun c => c.is_enabled).map fun c => c.nominal_power).sum := by
  have hn' := sortedEnabled_nominal_nonneg hn
  refine ⟨⟨sortedEnabled_sorted comps, sortedEnabled_perm comps⟩, ?_, ?_, ?_, ?_⟩
  · intro hsum c' hc' hen
    obtain ⟨i, c, hmem, hcase⟩ := mem_allocatePower hc'
    rcases hcase with ⟨q, hlook, rfl⟩ | ⟨hnone, rfl⟩
    · have henc : c.is_enabled = true := hen
      have hq : (i, q) ∈ greedyAssign b (sortedEnabled comps) := lookup_mem hlook
      rw [greedyAssign_full b (sortedEnabled comps) hn' hsum] at hq
      obtain ⟨p, hpmem, hpq⟩ := List.mem_map.mp hq
      obtain ⟨j, c₂⟩ := p
      have hji : j = i := congrArg Prod.fst hpq
      subst hji
      have hqv : q = c₂.nominal_power := (congrArg Prod.snd hpq).symm
      have hc₂ : c₂ = c :=
        keys_inj (sortedEnabled_keys_nodup comps) hpmem (mem_sortedEnabled hmem henc)
      rw [hqv, hc₂]
    · obtain ⟨q, hsome, _⟩ := alloc_enabled_lookup b hmem hen
      rw [hsome] at hnone
      cases hnone
  · intro c' hc' hen
    obtain ⟨i, c, hmem, hcase⟩ := mem_allocatePower hc'
    rcases hcase with ⟨q, hlook, rfl⟩ | ⟨hnone, rfl⟩
    · have henc : c.is_enabled = true := hen
      have hq : (i, q) ∈ greedyAssign 0 (sortedEnabled comps) := lookup_mem hlook
      rw [greedyAssign_zero (sortedEnabled comps) hn'] at hq
      obtain ⟨p, hpmem, hpq⟩ := List.mem_map.mp hq
      exact (congrArg Prod.snd hpq).symm
    · obtain ⟨q, hsome, _⟩ := alloc_enabled_lookup 0 hmem hen
      rw [hsome] at hnone
      cases hnone
  · intro hlt
    exact greedyAssign_shortfall b (sortedEnabled comps) hb hn' hlt
  · have h1 : sumNominal (sortedEnabled comps) =
        sumNominal (comps.enum.filter fun p => p.2.is_enabled) := by
      unfold sumNominal
      exact ((sortedEnabled_perm comps).map fun p => p.2.nominal_power).sum_eq
    rw [h1]
    unfold sumNominal
    rw [show (comps.enum.filter fun p => p.2.is_enabled).map
          (fun p => p.2.nominal_power) =
        ((comps.enum.filter fun p => p.2.is_enabled).map Prod.snd).map
          (fun c => c.nominal_power) from by rw [List.map_map]; rfl]
    rw [show (comps.enum.filter fun p => p.2.is_enabled).map Prod.snd =
        comps.filter (fun c => c.is_enabled) from by
      have := enumFrom_filter_snd_map (fun c : PowerComponent => c.is_enabled) 0 comps
      simpa [List.enum] using this]

/-- Claim C3, witness: on a one-component registry with budget 0 the
enabled component receives 0 W. -/
theorem C3_witness :
    ∃ c ∈ allocatePower 0 [⟨"a", ComponentPriority.HIGH, 4, 9, true, true⟩],
      c.current_power = 0 := by
  have hmem : (⟨"a", ComponentPriority.HIGH, 4, 0, true, true⟩ : PowerComponent)
      ∈ allocatePower 0 [⟨"a", ComponentPriority.HIGH, 4, 9, true, true⟩] := by
    decide
  exact ⟨_, hmem,
    (C3_allocator 0 _ (le_refl 0) (by decide)).2.2.1 _ hmem rfl⟩

end RoverEnergy
